import Mathlib

/-
  Shallow embedding of cat2neat/gopeek (gopeek.go) and proofs about it.

  Strings from the Go source are modelled as lists of characters; the
  helpers hasPrefix, toLowerStr and containsSub embed strings.HasPrefix,
  strings.ToLower and strings.Contains as used by the source.
-/

namespace GoPeek

/-- Strings of the Go source, modelled as lists of characters. -/
abbrev Str := List Char

/-- Embedding of strings.HasPrefix from the Go standard library. -/
def hasPrefix (s pre : Str) : Bool := pre.isPrefixOf s

/-- Embedding of strings.ToLower from the Go standard library
(ASCII range, which covers every reason string of the source). -/
def toLowerStr (s : Str) : Str := s.map Char.toLower

/-- Embedding of strings.Contains from the Go standard library:
true when the second list occurs as a contiguous substring of the first. -/
def containsSub : Str → Str → Bool
  | [], sub => sub.isEmpty
  | c :: rest, sub => sub.isPrefixOf (c :: rest) || containsSub rest sub

/-- State represents a state of a goroutine based on the waitreason of G
(type State in gopeek.go, an enumeration via iota). -/
inductive State where
  | StateIdle
  | StateRunnable
  | StateRunning
  | StateSysCall
  | StateWaiting
  | StateDead
  | StateEnqueue
  | StateCopyStack
  | StateSleeping
  | StateWaitingChannel
  | StateWaitingSelect
  | StateWaitingGCActivity
  | StateWaitingIo
  | StateWaitingLock
  | StateOther
deriving DecidableEq, BEq, Repr

/-- Constant strIdle of gopeek.go. -/
def strIdle : Str := ['i', 'd', 'l', 'e']

/-- Constant strRunnable of gopeek.go. -/
def strRunnable : Str := ['r', 'u', 'n', 'n', 'a', 'b', 'l', 'e']

/-- Constant strRunning of gopeek.go. -/
def strRunning : Str := ['r', 'u', 'n', 'n', 'i', 'n', 'g']

/-- Constant strSysCall of gopeek.go. -/
def strSysCall : Str := ['s', 'y', 's', 'c', 'a', 'l', 'l']

/-- Constant strWaiting of gopeek.go. -/
def strWaiting : Str := ['w', 'a', 'i', 't', 'i', 'n', 'g']

/-- Constant strDead of gopeek.go. -/
def strDead : Str := ['d', 'e', 'a', 'd']

/-- Constant strEnqueue of gopeek.go. -/
def strEnqueue : Str := ['e', 'n', 'q', 'u', 'e', 'u', 'e']

/-- Constant strCopyStack of gopeek.go. -/
def strCopyStack : Str := ['c', 'o', 'p', 'y', 's', 't', 'a', 'c', 'k']

/-- Constant strSleeping of gopeek.go. -/
def strSleeping : Str := ['s', 'l', 'e', 'e', 'p']

/-- Constant strWaitingChannel of gopeek.go. -/
def strWaitingChannel : Str := ['c', 'h', 'a', 'n']

/-- Constant strWaitingSelect of gopeek.go. -/
def strWaitingSelect : Str := ['s', 'e', 'l', 'e', 'c', 't']

/-- Constant strWaitingGCActivity1 of gopeek.go. -/
def strWaitingGCActivity1 : Str := ['g', 'c', ' ']

/-- Constant strWaitingGCActivity2 of gopeek.go. -/
def strWaitingGCActivity2 : Str := ['g', 'a', 'r', 'b', 'a', 'g', 'e']

/-- Constant strWaitingIO of gopeek.go. -/
def strWaitingIO : Str := ['I', 'O', ' ', 'w', 'a', 'i', 't']

/-- Constant strWaitingLock of gopeek.go. -/
def strWaitingLock : Str := ['s', 'e', 'm']

/-- Embedding of func NewState of gopeek.go: the exact switch on the
reason string, then the prefix checks for sem, chan and select, then the
lower-cased garbage or gc checks, otherwise StateOther. -/
def newState (state : Str) : State :=
  if state = strIdle then .StateIdle
  else if state = strRunnable then .StateRunnable
  else if state = strRunning then .StateRunning
  else if state = strSysCall then .StateSysCall
  else if state = strWaiting then .StateWaiting
  else if state = strDead then .StateDead
  else if state = strEnqueue then .StateEnqueue
  else if state = strCopyStack then .StateCopyStack
  else if state = strSleeping then .StateSleeping
  else if state = strWaitingIO then .StateWaitingIo
  else if hasPrefix state strWaitingLock then .StateWaitingLock
  else if hasPrefix state strWaitingChannel then .StateWaitingChannel
  else if hasPrefix state strWaitingSelect then .StateWaitingSelect
  else if hasPrefix (toLowerStr state) strWaitingGCActivity2
          || containsSub (toLowerStr state) strWaitingGCActivity1 then
    .StateWaitingGCActivity
  else .StateOther

/-- True when the string hits the exact-match table of the switch in
func NewState. -/
def inExactTable (s : Str) : Prop :=
  s = strIdle ∨ s = strRunnable ∨ s = strRunning ∨ s = strSysCall ∨
  s = strWaiting ∨ s = strDead ∨ s = strEnqueue ∨ s = strCopyStack ∨
  s = strSleeping ∨ s = strWaitingIO

instance (s : Str) : Decidable (inExactTable s) := by
  unfold inExactTable; infer_instance

example : newState strIdle = .StateIdle := by decide
example : newState (['s', 'e', 'm', 'a', 'c', 'q', 'u', 'i', 'r', 'e']) = .StateWaitingLock := by decide
example : newState (['G', 'C', ' ', 's', 'w', 'e', 'e', 'p', ' ', 'w', 'a', 'i', 't']) = .StateWaitingGCActivity := by decide
example : newState (['p', 'a', 'n', 'i', 'c', 'w', 'a', 'i', 't']) = .StateOther := by decide

/-- Embedding of stack.Goroutine as used by gopeek.go: only the State
field (waitreason string) and the creation-site name
Signature.CreatedBy.Func.PkgDotName() are consumed by the source. -/
structure Goroutine where
  state : Str
  createdBy : Str
deriving DecidableEq, Repr

/-- Embedding of the dynamic filter slot of Condition.filters: each entry
is either a FilterByGo (per-goroutine) or a FilterByGoes (per-set)
function value, mirroring the interface slice plus type switch of Eval. -/
inductive Filter where
  | byGo : (Goroutine → Bool) → Filter
  | byGoes : (List Goroutine → Bool) → Filter

/-- Embedding of the Condition struct of gopeek.go: the ordered filter
list and the current snapshot-buffer length. -/
structure Condition where
  filters : List Filter
  bufLen : Nat

/-- Embedding of Condition.Is: appends a FilterByGo comparing the
classified state with the given one. -/
def isFilter (state : State) : Filter :=
  .byGo (fun g => state == newState g.state)

/-- Embedding of Condition.Not: appends a FilterByGo demanding the
classified state differs from the given one. -/
def notFilter (state : State) : Filter :=
  .byGo (fun g => state != newState g.state)

/-- Embedding of Condition.In: appends a FilterByGo accepting a goroutine
whose classified state occurs among the given states. -/
def inFilter (states : List State) : Filter :=
  .byGo (fun g => states.any (fun s => newState g.state == s))

/-- Embedding of Condition.GT: appends a FilterByGoes comparing the
candidate-set size with v. -/
def gtFilter (v : Int) : Filter :=
  .byGoes (fun gs => decide (v < (gs.length : Int)))

/-- Embedding of Condition.LT: appends a FilterByGoes comparing the
candidate-set size with v. -/
def ltFilter (v : Int) : Filter :=
  .byGoes (fun gs => decide ((gs.length : Int) < v))

/-- Embedding of Condition.EQ: appends a FilterByGoes demanding the
candidate-set size equals v. -/
def eqFilter (v : Int) : Filter :=
  .byGoes (fun gs => decide ((gs.length : Int) = v))

/-- Embedding of the filter phase of Condition.Eval: the loop over
c.filters after a successful parse. A FilterByGo replaces the candidate
set by the kept subsequence and short-circuits when that is empty; a
FilterByGoes short-circuits when it rejects the current candidate set.
none models the early return of the pair nil, nil of the source. -/
def evalFilters : List Filter → List Goroutine → Option (List Goroutine)
  | [], gs => some gs
  | .byGo f :: rest, gs =>
    let ngs := gs.filter f
    if ngs.isEmpty then none else evalFilters rest ngs
  | .byGoes f :: rest, gs =>
    if f gs then evalFilters rest gs else none

/-- The goroutine slice Eval hands back from the filter phase: the empty
slice on a short-circuit (the source returns nil there), otherwise the
final candidate set. -/
def evalFiltersRun (fs : List Filter) (gs : List Goroutine) : List Goroutine :=
  (evalFilters fs gs).getD []

/-- Embedding of the runtime.Stack capture loop of Condition.Eval over an
abstract dump collaborator d mapping a buffer length to the bytes
written. While the dump fills the whole buffer the buffer is reallocated
at twice the written size, exactly as the source does; on exit the result
carries the bytes written, the final buffer length and the number of
doubling rounds taken. The fuel argument bounds the unbounded source
loop; none models running out of fuel. -/
def captureLoop (d : Nat → Nat) : Nat → Nat → Option (Nat × Nat × Nat)
  | _, 0 => none
  | b, fuel + 1 =>
    let n := d b
    if n = b then
      (captureLoop d (n * 2) fuel).map (fun r => (r.1, r.2.1, r.2.2 + 1))
    else
      some (n, b, 0)

/-- Model of runtime.Stack with all goroutines: the full dump needs S
bytes and the call writes as much of it as fits in the buffer. -/
def stackDump (S : Nat) : Nat → Nat := fun b => min S b

/-- Capture phase of Condition.Eval against the runtime.Stack model. -/
def capture (S b fuel : Nat) : Option (Nat × Nat × Nat) :=
  captureLoop (stackDump S) b fuel

/-- Outcome of one Condition.Eval call after a successful capture: the
parse error is propagated; otherwise the filter phase runs. -/
def evalOutcome (pr : Except Unit (List Goroutine)) (fs : List Filter) :
    Except Unit (List Goroutine) :=
  match pr with
  | .error e => .error e
  | .ok gs => .ok (evalFiltersRun fs gs)

/-- Embedding of Condition.Eval: capture a snapshot (growing the buffer),
parse it (pr is the parse-collaborator outcome on the captured dump, an
error value or the goroutine list) and run the filter phase. The result
also carries the persisting buffer length; none models a diverging
capture loop. -/
def evalCondition (S : Nat) (pr : Except Unit (List Goroutine))
    (fs : List Filter) (b fuel : Nat) :
    Option (Except Unit (List Goroutine) × Nat) :=
  (capture S b fuel).map (fun r => (evalOutcome pr fs, r.2.1))

/-- Errors Condition.Wait can surface: the parse error propagated from
Eval or ErrTimeout. -/
inductive WaitErr where
  | parseError
  | errTimeout
deriving DecidableEq, Repr

/-- Embedding of the loop of Condition.Wait over a trace of Eval
outcomes: each trace entry pairs the outcome one Eval call returns with
the elapsed wall-clock reading the subsequent deadline check would
observe. An error returns at once; a non-empty result returns at once;
otherwise the deadline is consulted and the loop continues. none models
a loop still polling when the trace ends. -/
def waitGo : List (Except Unit (List Goroutine) × Int) → Int →
    Option (Except WaitErr (List Goroutine))
  | [], _ => none
  | (r, t) :: rest, timeout =>
    match r with
    | .error _ => some (.error .parseError)
    | .ok gs =>
      if 0 < gs.length then some (.ok gs)
      else if 0 < timeout ∧ timeout < t then some (.error .errTimeout)
      else waitGo rest timeout

/-- Embedding of Condition.Wait driving the full Eval model: each step
carries the snapshot of that iteration (its dump size and parse outcome)
and the elapsed reading of the deadline check, while the snapshot buffer
length persists across iterations as the mutable field c.buf does. -/
def waitFull (fs : List Filter) (timeout : Int) :
    List (Nat × Except Unit (List Goroutine) × Int) → Nat →
    Option (Except WaitErr (List Goroutine))
  | [], _ => none
  | (S, pr, t) :: rest, b =>
    match evalCondition S pr fs b (S + 2) with
    | none => none
    | some (.error _, _) => some (.error .parseError)
    | some (.ok gs, b') =>
      if 0 < gs.length then some (.ok gs)
      else if 0 < timeout ∧ timeout < t then some (.error .errTimeout)
      else waitFull fs timeout rest b'

/-- Embedding of Condition.CreatedBy over an abstract regular-expression
collaborator: compile pat returns the compiled matcher or none when the
pattern is malformed (regexp.MustCompile panics at construction). On
success the appended FilterByGo matches the creation-site name. -/
def createdBy (compile : Str → Option (Str → Bool)) (pat : Str)
    (c : Condition) : Option Condition :=
  match compile pat with
  | none => none
  | some re =>
    some { c with filters := c.filters ++ [.byGo (fun g => re g.createdBy)] }

/-- Capture at buffer length b never exits when every iteration leaves
the length at b again: divergence of the source loop. -/
def captureDiverges (S b : Nat) : Prop :=
  ∀ fuel, capture S b fuel = none

/-- Embedding of NewConditionWithConfig: the filter list starts empty
whatever capacity hint is given, and the buffer takes the given length. -/
def newConditionWithConfig (_filterSize bufSize : Nat) : Condition :=
  { filters := [], bufLen := bufSize }

/-- Ceiling division on naturals, used to state the growth-round bound. -/
def divUp (a b : Nat) : Nat := (a + b - 1) / b

/-- The filter phase splits over list append: the second block runs on
the candidate set the first block produced, unless that block already
short-circuited. -/
theorem evalFilters_append (xs ys : List Filter) (gs : List Goroutine) :
    evalFilters (xs ++ ys) gs =
      (evalFilters xs gs).bind (fun c => evalFilters ys c) := by
  induction xs generalizing gs with
  | nil => rfl
  | cons f xs ih =>
    cases f with
    | byGo p =>
      simp only [List.cons_append, evalFilters]
      split
      · rfl
      · exact ih _
    | byGoes q =>
      simp only [List.cons_append, evalFilters]
      split
      · exact ih gs
      · rfl

/-- List.all is invariant under permutation of the list. -/
theorem perm_all_eq {α : Type} {ps qs : List α} (h : ps.Perm qs)
    (f : α → Bool) : ps.all f = qs.all f := by
  induction h with
  | nil => rfl
  | cons x _ ih => simp [List.all_cons, ih]
  | swap x y l => simp [List.all_cons, Bool.and_left_comm]
  | trans _ _ ih1 ih2 => rw [ih1, ih2]

/-- A run of unit filters computes the filter by the conjunction of all
predicates: the short-circuit on an empty intermediate set never changes
the final slice Eval hands back. -/
theorem evalFilters_units (ps : List (Goroutine → Bool)) (gs : List Goroutine) :
    evalFiltersRun (ps.map Filter.byGo) gs =
      gs.filter (fun g => ps.all (fun p => p g)) := by
  induction ps generalizing gs with
  | nil => simp [evalFiltersRun, evalFilters]
  | cons p ps ih =>
    have hsplit : gs.filter (fun g => (p :: ps).all (fun q => q g)) =
        (gs.filter p).filter (fun g => ps.all (fun q => q g)) := by
      rw [List.filter_filter]
      apply List.filter_congr
      intro a _
      simp [List.all_cons, Bool.and_comm]
    rw [hsplit]
    simp only [List.map_cons]
    unfold evalFiltersRun
    simp only [evalFilters]
    by_cases h : (gs.filter p).isEmpty
    · have hnil : gs.filter p = [] := by
        cases hfp : gs.filter p
        · rfl
        · rw [hfp] at h; simp [List.isEmpty] at h
      simp [h, hnil]
    · simp only [h, if_neg, Bool.false_eq_true, not_false_eq_true, if_false]
      exact ih (gs.filter p)

/-- Full behaviour of the buffer-growth loop of Eval against a dump
collaborator that fills every buffer shorter than S and fits strictly
into any longer one: the loop exits with the bytes the dump wrote into
the final buffer, the buffer has been doubled k times, and when k is
positive the previous buffer was still shorter than S. -/
theorem captureLoop_spec (d : Nat → Nat) (S : Nat)
    (h1 : ∀ x, x < S → d x = x) (h2 : ∀ x, S ≤ x → d x < x) :
    ∀ fuel b, 1 ≤ b → S - b < fuel →
    ∃ n b' k, captureLoop d b fuel = some (n, b', k) ∧
      n = d b' ∧ S ≤ b' ∧ b ≤ b' ∧ b' = b * 2 ^ k ∧
      (k = 0 ∨ b * 2 ^ (k - 1) < S) := by
  intro fuel
  induction fuel with
  | zero => intro b _ hfb; omega
  | succ fuel ih =>
    intro b hb hfb
    by_cases hd : d b = b
    · have hbS : b < S := by
        by_contra hge
        push_neg at hge
        have := h2 b hge
        omega
      obtain ⟨n, b', k, hcap, hn, hSb', hbb', hpow, hk⟩ :=
        ih (b * 2) (by omega) (by omega)
      refine ⟨n, b', k + 1, ?_, hn, hSb', by omega, ?_, ?_⟩
      · simp only [captureLoop, hd, if_pos]
        rw [hcap]
        rfl
      · rw [hpow]
        rw [pow_succ]
        ring
      · right
        rcases hk with rfl | hlt
        · simpa using hbS
        · rcases k with _ | j
          · simpa using hbS
          · have : b * 2 * 2 ^ j = b * 2 ^ (j + 1) := by rw [pow_succ]; ring
            simp only [Nat.add_sub_cancel]
            simpa [this] using hlt
    · refine ⟨d b, b, 0, ?_, rfl, ?_, le_refl b, by simp, Or.inl rfl⟩
      · simp only [captureLoop, hd, if_neg]
        simp [hd]
      · by_contra hlt
        push_neg at hlt
        exact hd (h1 b hlt)

/-- The capture phase of Eval against the runtime.Stack model always
terminates from a positive buffer length, returns the full dump size and
keeps the buffer positive. -/
theorem capture_succeeds (S b : Nat) (hb : 1 ≤ b) :
    ∃ b' k, capture S b (S + 2) = some (S, b', k) ∧ 1 ≤ b' ∧ b ≤ b' := by
  have h1 : ∀ x, x < S + 1 → stackDump S x = x := by
    intro x hx
    unfold stackDump
    omega
  have h2 : ∀ x, S + 1 ≤ x → stackDump S x < x := by
    intro x hx
    unfold stackDump
    omega
  obtain ⟨n, b', k, hcap, hn, hSb', hbb', _, _⟩ :=
    captureLoop_spec (stackDump S) (S + 1) h1 h2 (S + 2) b hb (by omega)
  have hnS : n = S := by
    rw [hn]
    unfold stackDump
    omega
  subst hnS
  exact ⟨b', k, hcap, by omega, hbb'⟩

/-- Successful shape of one Eval against the model: from a positive
buffer the capture loop converges and the outcome is the parse outcome
run through the filter phase, with a positive buffer persisting. -/
theorem evalCondition_succeeds (S : Nat) (pr : Except Unit (List Goroutine))
    (fs : List Filter) (b : Nat) (hb : 1 ≤ b) :
    ∃ b', evalCondition S pr fs b (S + 2) = some (evalOutcome pr fs, b') ∧
      1 ≤ b' := by
  obtain ⟨b', k, hcap, hb', _⟩ := capture_succeeds S b hb
  exact ⟨b', by simp [evalCondition, hcap], hb'⟩

/-- The reason string chan send from the known-reason corpus. -/
def strChanSend : Str := ['c', 'h', 'a', 'n', ' ', 's', 'e', 'n', 'd']

/-- The reason string chan receive from the known-reason corpus. -/
def strChanReceive : Str :=
  ['c', 'h', 'a', 'n', ' ', 'r', 'e', 'c', 'e', 'i', 'v', 'e']

/-- The reason string select (no cases) from the known-reason corpus. -/
def strSelectNoCases : Str :=
  ['s', 'e', 'l', 'e', 'c', 't', ' ', '(', 'n', 'o', ' ', 'c', 'a', 's', 'e', 's', ')']

/-- The reason string semacquire from the known-reason corpus. -/
def strSemAcquire : Str :=
  ['s', 'e', 'm', 'a', 'c', 'q', 'u', 'i', 'r', 'e']

/-- The reason string semrelease from the known-reason corpus. -/
def strSemRelease : Str :=
  ['s', 'e', 'm', 'r', 'e', 'l', 'e', 'a', 's', 'e']

/-- The reason string GC sweep wait from the known-reason corpus. -/
def strGCSweepWait : Str :=
  ['G', 'C', ' ', 's', 'w', 'e', 'e', 'p', ' ', 'w', 'a', 'i', 't']

/-- The reason string GC assist wait from the known-reason corpus. -/
def strGCAssistWait : Str :=
  ['G', 'C', ' ', 'a', 's', 's', 'i', 's', 't', ' ', 'w', 'a', 'i', 't']

/-- The reason string force gc (idle) from the known-reason corpus. -/
def strForceGCIdle : Str :=
  ['f', 'o', 'r', 'c', 'e', ' ', 'g', 'c', ' ', '(', 'i', 'd', 'l', 'e', ')']

/-- The reason string garbage collection from the known-reason corpus. -/
def strGarbageCollection : Str :=
  ['g', 'a', 'r', 'b', 'a', 'g', 'e', ' ', 'c', 'o', 'l', 'l', 'e', 'c', 't', 'i', 'o', 'n']

/-- The unrecognized reason string panicwait from the corpus. -/
def strPanicWait : Str :=
  ['p', 'a', 'n', 'i', 'c', 'w', 'a', 'i', 't']

/-- C3: NewState is a total function applying, with first match winning,
the exact table, then the sem, chan and select prefixes, then the
lower-cased garbage-prefix or gc-substring rule, otherwise StateOther;
on the fixed corpus it returns the documented canonical states and
unrecognized strings such as panicwait give StateOther, never an error. -/
theorem c3_newState_classifier :
    (newState strIdle = .StateIdle ∧ newState strRunnable = .StateRunnable ∧
     newState strRunning = .StateRunning ∧ newState strSysCall = .StateSysCall ∧
     newState strWaiting = .StateWaiting ∧ newState strDead = .StateDead ∧
     newState strEnqueue = .StateEnqueue ∧
     newState strCopyStack = .StateCopyStack ∧
     newState strSleeping = .StateSleeping ∧
     newState strWaitingIO = .StateWaitingIo) ∧
    (∀ s : Str, ¬ inExactTable s → hasPrefix s strWaitingLock = true →
      newState s = .StateWaitingLock) ∧
    (∀ s : Str, ¬ inExactTable s → hasPrefix s strWaitingLock = false →
      hasPrefix s strWaitingChannel = true →
      newState s = .StateWaitingChannel) ∧
    (∀ s : Str, ¬ inExactTable s → hasPrefix s strWaitingLock = false →
      hasPrefix s strWaitingChannel = false →
      hasPrefix s strWaitingSelect = true →
      newState s = .StateWaitingSelect) ∧
    (∀ s : Str, ¬ inExactTable s → hasPrefix s strWaitingLock = false →
      hasPrefix s strWaitingChannel = false →
      hasPrefix s strWaitingSelect = false →
      (hasPrefix (toLowerStr s) strWaitingGCActivity2 ||
        containsSub (toLowerStr s) strWaitingGCActivity1) = true →
      newState s = .StateWaitingGCActivity) ∧
    (∀ s : Str, ¬ inExactTable s → hasPrefix s strWaitingLock = false →
      hasPrefix s strWaitingChannel = false →
      hasPrefix s strWaitingSelect = false →
      (hasPrefix (toLowerStr s) strWaitingGCActivity2 ||
        containsSub (toLowerStr s) strWaitingGCActivity1) = false →
      newState s = .StateOther) ∧
    (newState strChanSend = .StateWaitingChannel ∧
     newState strChanReceive = .StateWaitingChannel ∧
     newState strWaitingSelect = .StateWaitingSelect ∧
     newState strSelectNoCases = .StateWaitingSelect ∧
     newState strSemAcquire = .StateWaitingLock ∧
     newState strSemRelease = .StateWaitingLock ∧
     newState strGCSweepWait = .StateWaitingGCActivity ∧
     newState strGCAssistWait = .StateWaitingGCActivity ∧
     newState strForceGCIdle = .StateWaitingGCActivity ∧
     newState strGarbageCollection = .StateWaitingGCActivity ∧
     newState strPanicWait = .StateOther) := by
  refine ⟨by decide, ?_, ?_, ?_, ?_, ?_, by decide⟩
  all_goals
    intro s hT
    unfold inExactTable at hT
    push_neg at hT
    obtain ⟨h1, h2, h3, h4, h5, h6, h7, h8, h9, h10⟩ := hT
  · intro hsem
    simp [newState, h1, h2, h3, h4, h5, h6, h7, h8, h9, h10, hsem]
  · intro hsem hchan
    simp [newState, h1, h2, h3, h4, h5, h6, h7, h8, h9, h10, hsem, hchan]
  · intro hsem hchan hsel
    simp [newState, h1, h2, h3, h4, h5, h6, h7, h8, h9, h10, hsem, hchan, hsel]
  · intro hsem hchan hsel hgc
    simp [newState, h1, h2, h3, h4, h5, h6, h7, h8, h9, h10, hsem, hchan,
      hsel, hgc]
  · intro hsem hchan hsel hgc
    simp only [Bool.or_eq_false_iff] at hgc
    simp [newState, h1, h2, h3, h4, h5, h6, h7, h8, h9, h10, hsem, hchan,
      hsel, hgc.1, hgc.2]

/-- Witness for C3: the prefix rule applied at the concrete reason string
semacquire, which is not in the exact table. -/
theorem c3_witness : newState strSemAcquire = .StateWaitingLock :=
  c3_newState_classifier.2.1 strSemAcquire (by decide) (by decide)

/-- C4: once a unit filter empties the candidate set or a set filter
rejects, the filter phase of Eval short-circuits; the result is the
empty slice with a nil error, and appending any further filters after
the rejection leaves the result unchanged. -/
theorem c4_short_circuit_stops (fs : List Filter) (gs : List Goroutine)
    (h : evalFilters fs gs = none) :
    (∀ more, evalFiltersRun (fs ++ more) gs = [] ∧ evalFiltersRun fs gs = []) ∧
    (∀ S b more, 1 ≤ b →
      (evalCondition S (.ok gs) (fs ++ more) b (S + 2)).map Prod.fst =
        some (.ok [])) := by
  have happ : ∀ more, evalFilters (fs ++ more) gs = none := by
    intro more
    rw [evalFilters_append, h]
    rfl
  constructor
  · intro more
    constructor
    · simp [evalFiltersRun, happ more]
    · simp [evalFiltersRun, h]
  · intro S b more hb
    obtain ⟨b', hc, _⟩ := evalCondition_succeeds S (.ok gs) (fs ++ more) b hb
    rw [hc]
    simp [evalOutcome, evalFiltersRun, happ more]

/-- Witness for C4: a size filter demanding five goroutines rejects the
empty snapshot, and appending a further filter does not change the empty
outcome, nor does the full Eval model report an error. -/
theorem c4_witness :
    (evalFiltersRun ([eqFilter 5] ++ [gtFilter 0]) [] = [] ∧
      evalFiltersRun [eqFilter 5] [] = []) ∧
    (evalCondition 3 (.ok []) ([eqFilter 5] ++ [gtFilter 0]) 1 5).map Prod.fst =
      some (.ok []) :=
  ⟨(c4_short_circuit_stops [eqFilter 5] [] (by decide)).1 [gtFilter 0],
   (c4_short_circuit_stops [eqFilter 5] [] (by decide)).2 3 1 [gtFilter 0]
     (by omega)⟩

/-- C5: a Condition holding no filters returns from Eval exactly the full
parsed snapshot with a nil error, whenever the dump parses successfully. -/
theorem c5_empty_filters_full_snapshot (S : Nat) (gs : List Goroutine)
    (b : Nat) (hb : 1 ≤ b) :
    (evalCondition S (.ok gs) [] b (S + 2)).map Prod.fst = some (.ok gs) ∧
    evalFilters [] gs = some gs := by
  obtain ⟨b', hc, _⟩ := evalCondition_succeeds S (.ok gs) [] b hb
  rw [hc]
  exact ⟨by simp [evalOutcome, evalFiltersRun, evalFilters], rfl⟩

/-- Goroutine in state running used by concrete evaluations. -/
def gRunning : Goroutine := { state := strRunning, createdBy := ['a', 'b'] }

/-- Goroutine in state idle used by concrete evaluations. -/
def gIdle : Goroutine := { state := strIdle, createdBy := ['c', 'd'] }

/-- Witness for C5: Eval with no filters over a two-goroutine snapshot
returns the whole snapshot. -/
theorem c5_witness :
    (evalCondition 4 (.ok [gRunning, gIdle]) [] 1 6).map Prod.fst =
      some (.ok [gRunning, gIdle]) :=
  (c5_empty_filters_full_snapshot 4 [gRunning, gIdle] 1 (by omega)).1

/-- Counterexample to C1: over the snapshot of one running and one idle
goroutine, the filter list EQ 2 then Is Running returns the running
goroutine, while the permuted list Is Running then EQ 2 returns the
empty slice: a set predicate is evaluated against the current candidate
set, so permuting it past a unit predicate changes the result of Eval
(and the returned set does not satisfy the conjunction of all
predicates, as it has length one, not two). -/
theorem c1_counterexample :
    evalFiltersRun [eqFilter 2, isFilter .StateRunning] [gRunning, gIdle] =
      [gRunning] ∧
    evalFiltersRun [isFilter .StateRunning, eqFilter 2] [gRunning, gIdle] =
      [] ∧
    List.Perm [eqFilter 2, isFilter .StateRunning]
      [isFilter .StateRunning, eqFilter 2] :=
  ⟨by decide, by decide, List.Perm.swap (isFilter .StateRunning) (eqFilter 2) []⟩

/-- C1 as amended: order independence holds for the unit predicates (Is,
Not, In and any FilterByGo): a run of unit filters returns exactly the
subsequence satisfying the conjunction of all of them, and permuting the
unit filters never changes the result of the filter phase. Set
predicates (GT, LT, EQ) are evaluated against the current candidate set,
so they may not be permuted past unit predicates (see the
counterexample). -/
theorem c1_amended_unit_predicates_commute
    (ps qs : List (Goroutine → Bool)) (gs : List Goroutine)
    (h : ps.Perm qs) :
    evalFiltersRun (ps.map Filter.byGo) gs =
      gs.filter (fun g => ps.all (fun p => p g)) ∧
    evalFiltersRun (ps.map Filter.byGo) gs =
      evalFiltersRun (qs.map Filter.byGo) gs := by
  refine ⟨evalFilters_units ps gs, ?_⟩
  rw [evalFilters_units ps gs, evalFilters_units qs gs]
  apply List.filter_congr
  intro a _
  exact perm_all_eq h (fun p => p a)

/-- Witness for C1 as amended: the two unit filters Is Running and Not
Idle commute over the two-goroutine snapshot and compute the conjunction
filter. -/
theorem c1_witness :
    evalFiltersRun ([fun g => State.StateRunning == newState g.state,
        fun g => State.StateIdle != newState g.state].map Filter.byGo)
      [gRunning, gIdle] =
      List.filter
        (fun g => [fun g => State.StateRunning == newState g.state,
          fun g => State.StateIdle != newState g.state].all (fun p => p g))
        [gRunning, gIdle] ∧
    evalFiltersRun ([fun g => State.StateRunning == newState g.state,
        fun g => State.StateIdle != newState g.state].map Filter.byGo)
      [gRunning, gIdle] =
      evalFiltersRun ([fun g => State.StateIdle != newState g.state,
        fun g => State.StateRunning == newState g.state].map Filter.byGo)
      [gRunning, gIdle] :=
  c1_amended_unit_predicates_commute
    [fun g => State.StateRunning == newState g.state,
     fun g => State.StateIdle != newState g.state]
    [fun g => State.StateIdle != newState g.state,
     fun g => State.StateRunning == newState g.state]
    [gRunning, gIdle]
    (List.Perm.swap _ _ _)

/-- C8: along the filter phase of one Eval every candidate set is a
subsequence of the snapshot; applying one more filter from the list
yields a subsequence of (hence never more elements than) the previous
candidate set; a set filter leaves the candidate set itself untouched
and only accepts or rejects it, while a unit filter replaces it by the
kept subsequence. -/
theorem c8_monotonic_narrowing :
    (∀ fs gs r, evalFilters fs gs = some r → r.Sublist gs) ∧
    (∀ (fs : List Filter) k gs r',
      evalFilters (fs.take (k + 1)) gs = some r' →
      ∃ r, evalFilters (fs.take k) gs = some r ∧ r'.Sublist r ∧
        r'.length ≤ r.length) ∧
    (∀ q fs gs, evalFilters (Filter.byGoes q :: fs) gs =
      if q gs then evalFilters fs gs else none) ∧
    (∀ p fs gs, evalFilters (Filter.byGo p :: fs) gs =
      if (gs.filter p).isEmpty then none
      else evalFilters fs (gs.filter p)) := by
  have hsub : ∀ fs gs r, evalFilters fs gs = some r → r.Sublist gs := by
    intro fs
    induction fs with
    | nil =>
      intro gs r h
      simp only [evalFilters, Option.some_inj] at h
      exact h ▸ List.Sublist.refl gs
    | cons f fs ih =>
      intro gs r h
      cases f with
      | byGo p =>
        simp only [evalFilters] at h
        split at h
        · exact absurd h (by simp)
        · exact (ih _ r h).trans (List.filter_sublist gs)
      | byGoes q =>
        simp only [evalFilters] at h
        split at h
        · exact ih gs r h
        · exact absurd h (by simp)
  have hstep : ∀ (f : Filter) gs r',
      evalFilters [f] gs = some r' → r'.Sublist gs := by
    intro f gs r' h
    exact hsub [f] gs r' h
  refine ⟨hsub, ?_, ?_, ?_⟩
  · intro fs k gs r' h
    by_cases hk : fs.length ≤ k
    · have hsame : fs.take (k + 1) = fs.take k := by
        rw [List.take_of_length_le hk, List.take_of_length_le (by omega)]
      rw [hsame] at h
      exact ⟨r', h, List.Sublist.refl r', le_refl _⟩
    · rw [List.take_succ] at h
      rw [evalFilters_append] at h
      rcases hmid : evalFilters (fs.take k) gs with _ | r
      · rw [hmid] at h
        exact absurd h (by simp [Option.bind])
      · rw [hmid] at h
        simp only [Option.some_bind] at h
        refine ⟨r, rfl, ?_⟩
        have hlt : k < fs.length := by omega
        have hget : fs[k]?.toList = [fs[k]] := by
          simp [List.getElem?_eq_getElem hlt]
        rw [hget] at h
        have := hstep fs[k] r r' h
        exact ⟨this, this.length_le⟩
  · intro q fs gs
    rfl
  · intro p fs gs
    rfl

/-- Witness for C8: the candidate set after the Is Running filter is a
subsequence of the two-goroutine snapshot. -/
theorem c8_witness :
    List.Sublist [gRunning] [gRunning, gIdle] :=
  c8_monotonic_narrowing.1 [isFilter .StateRunning] [gRunning, gIdle]
    [gRunning] (by decide)

/-- C7: the capture loop doubles the buffer exactly while the dump
reports bytesWritten equal to the buffer length and stops as soon as the
dump fits strictly; against a dump collaborator that fills every buffer
shorter than S and fits strictly into any buffer of length at least S,
the loop converges from every positive initial length after at most
ceil(log2(S / initialSize)) doubling rounds. -/
theorem c7_buffer_growth_converges (d : Nat → Nat) (S b0 : Nat)
    (hb : 1 ≤ b0)
    (h1 : ∀ x, x < S → d x = x) (h2 : ∀ x, S ≤ x → d x < x) :
    ∃ n b' k, captureLoop d b0 (S + 1) = some (n, b', k) ∧
      k ≤ Nat.clog 2 (divUp S b0) := by
  obtain ⟨n, b', k, hcap, _, _, _, _, hk⟩ :=
    captureLoop_spec d S h1 h2 (S + 1) b0 hb (by omega)
  refine ⟨n, b', k, hcap, ?_⟩
  rcases hk with rfl | hlt
  · exact Nat.zero_le _
  · by_contra hgt
    push_neg at hgt
    have hle : Nat.clog 2 (divUp S b0) ≤ k - 1 := by omega
    have hc : divUp S b0 ≤ 2 ^ (k - 1) :=
      (Nat.le_pow_iff_clog_le one_lt_two).mpr hle
    have hS : S ≤ b0 * divUp S b0 := by
      unfold divUp
      have hmod := Nat.div_add_mod (S + b0 - 1) b0
      have hmlt : (S + b0 - 1) % b0 < b0 := Nat.mod_lt _ (by omega)
      omega
    have : S ≤ b0 * 2 ^ (k - 1) :=
      le_trans hS (Nat.mul_le_mul_left b0 hc)
    omega

/-- Witness for C7: with the concrete dump collaborator min 5 and
threshold 6, the loop from length 1 converges within the stated bound. -/
theorem c7_witness :
    ∃ n b' k, captureLoop (fun b => min 5 b) 1 7 = some (n, b', k) ∧
      k ≤ Nat.clog 2 (divUp 6 1) :=
  c7_buffer_growth_converges (fun b => min 5 b) 6 1 (by omega)
    (fun x hx => by simp only [Nat.min_def]; split <;> omega)
    (fun x hx => by simp only [Nat.min_def]; split <;> omega)

/-- Counterexample to C2: with a snapshot-buffer size of zero the capture
loop of Eval never terminates: runtime.Stack writes zero bytes into the
empty buffer, zero equals the buffer length, and the reallocation at
twice the written size keeps the length at zero forever; with the
default size Eval returns the snapshot. Thus a zero buffer size is
observably different from the default. -/
theorem c2_counterexample :
    captureDiverges 5 0 ∧
    capture 5 1048576 6 = some (5, 1048576, 0) ∧
    (evalCondition 5 (.ok [gRunning]) [] 0 1000).map Prod.fst = none ∧
    (evalCondition 5 (.ok [gRunning]) [] 1048576 6).map Prod.fst =
      some (.ok [gRunning]) := by
  have hdiv : captureDiverges 5 0 := by
    intro fuel
    induction fuel with
    | zero => rfl
    | succ f ih =>
      show captureLoop (stackDump 5) 0 (f + 1) = none
      simp only [captureLoop, stackDump]
      norm_num
      exact ih
  refine ⟨hdiv, by decide, ?_, by rfl⟩
  simp [evalCondition, hdiv 1000]

/-- C2 as amended: both construction-time sizing values are pure
performance tuning for every positive buffer size: Conditions built with
any positive buffer sizes produce identical observable results from the
Eval model and from the Wait model over any run of snapshots, and the
filter-capacity hint never changes the built Condition at all. A buffer
size of zero, however, makes the capture loop diverge (see the
counterexample), so the claim holds only for positive sizes. -/
theorem c2_amended_positive_sizes_equal (S : Nat)
    (pr : Except Unit (List Goroutine)) (fs : List Filter)
    (snaps : List (Nat × Except Unit (List Goroutine) × Int))
    (timeout : Int) (b1 b2 : Nat) (hb1 : 1 ≤ b1) (hb2 : 1 ≤ b2) :
    (evalCondition S pr fs b1 (S + 2)).map Prod.fst =
      (evalCondition S pr fs b2 (S + 2)).map Prod.fst ∧
    waitFull fs timeout snaps b1 = waitFull fs timeout snaps b2 ∧
    ∀ fsz1 fsz2 bs, newConditionWithConfig fsz1 bs =
      newConditionWithConfig fsz2 bs := by
  refine ⟨?_, ?_, fun fsz1 fsz2 bs => rfl⟩
  · obtain ⟨b1', hc1, _⟩ := evalCondition_succeeds S pr fs b1 hb1
    obtain ⟨b2', hc2, _⟩ := evalCondition_succeeds S pr fs b2 hb2
    rw [hc1, hc2]
    rfl
  · induction snaps generalizing b1 b2 with
    | nil => rfl
    | cons snap rest ih =>
      obtain ⟨Ss, prs, ts⟩ := snap
      obtain ⟨b1', hc1, hb1'⟩ := evalCondition_succeeds Ss prs fs b1 hb1
      obtain ⟨b2', hc2, hb2'⟩ := evalCondition_succeeds Ss prs fs b2 hb2
      show waitFull fs timeout ((Ss, prs, ts) :: rest) b1 =
        waitFull fs timeout ((Ss, prs, ts) :: rest) b2
      simp only [waitFull, hc1, hc2]
      cases evalOutcome prs fs with
      | error e => rfl
      | ok gs =>
        by_cases hlen : 0 < gs.length
        · simp [hlen]
        · by_cases htime : 0 < timeout ∧ timeout < ts
          · simp [hlen, htime]
          · simp only [hlen, if_false, htime, if_neg, if_pos]
            exact ih b1' b2' hb1' hb2'

/-- Witness for C2 as amended: buffer sizes one and two give the same
observable Eval outcome on a concrete snapshot. -/
theorem c2_witness :
    (evalCondition 3 (.ok [gRunning]) [] 1 5).map Prod.fst =
      (evalCondition 3 (.ok [gRunning]) [] 2 5).map Prod.fst :=
  (c2_amended_positive_sizes_equal 3 (.ok [gRunning]) [] [] 0 1 2
    (by omega) (by omega)).1

/-- Exact characterization of when the Wait loop returns ErrTimeout: a
positive timeout, a run of completed Eval calls that all returned the
empty set without error and whose deadline checks still read at most the
timeout, and then one more empty Eval whose deadline check reads beyond
the timeout. -/
theorem waitGo_timeout_iff
    (trace : List (Except Unit (List Goroutine) × Int)) (timeout : Int) :
    waitGo trace timeout = some (.error .errTimeout) ↔
      0 < timeout ∧ ∃ pre x post, trace = pre ++ x :: post ∧
        (∀ y ∈ pre, y.1 = .ok ([] : List Goroutine) ∧ y.2 ≤ timeout) ∧
        x.1 = .ok ([] : List Goroutine) ∧ timeout < x.2 := by
  induction trace with
  | nil =>
    constructor
    · intro h
      simp [waitGo] at h
    · rintro ⟨_, pre, x, post, habs, _⟩
      cases pre <;> simp at habs
  | cons hd rest ih =>
    obtain ⟨r, t⟩ := hd
    cases r with
    | error e =>
      constructor
      · intro h
        simp [waitGo] at h
      · rintro ⟨hpos, pre, x, post, heq, hpre, hx, ht⟩
        cases pre with
        | nil =>
          simp only [List.nil_append] at heq
          injection heq with h1 _
          rw [← h1] at hx
          simp at hx
        | cons p pre' =>
          simp only [List.cons_append] at heq
          injection heq with h1 _
          have := (hpre p (List.mem_cons_self p pre')).1
          rw [← h1] at this
          simp at this
    | ok gs =>
      by_cases hlen : 0 < gs.length
      · constructor
        · intro h
          simp [waitGo, hlen] at h
        · rintro ⟨hpos, pre, x, post, heq, hpre, hx, ht⟩
          cases pre with
          | nil =>
            simp only [List.nil_append] at heq
            injection heq with h1 _
            rw [← h1] at hx
            simp only at hx
            injection hx with h2
            rw [h2] at hlen
            simp at hlen
          | cons p pre' =>
            simp only [List.cons_append] at heq
            injection heq with h1 _
            have := (hpre p (List.mem_cons_self p pre')).1
            rw [← h1] at this
            simp only at this
            injection this with h2
            rw [h2] at hlen
            simp at hlen
      · have hgs : gs = [] := List.length_eq_zero.mp (by omega)
        subst hgs
        by_cases htime : 0 < timeout ∧ timeout < t
        · constructor
          · intro _
            exact ⟨htime.1, [], (.ok [], t), rest, rfl, by simp, rfl, htime.2⟩
          · intro _
            simp [waitGo, htime]
        · have hrw : waitGo ((Except.ok [], t) :: rest) timeout =
              waitGo rest timeout := by
            simp [waitGo, htime]
          rw [hrw, ih]
          constructor
          · rintro ⟨hpos, pre, x, post, heq, hpre, hx, ht⟩
            refine ⟨hpos, (.ok [], t) :: pre, x, post, by rw [heq]; rfl, ?_,
              hx, ht⟩
            intro y hy
            rcases List.mem_cons.mp hy with rfl | hy'
            · refine ⟨rfl, ?_⟩
              have hts : ¬ timeout < t := fun hlt => htime ⟨hpos, hlt⟩
              omega
            · exact hpre y hy'
          · rintro ⟨hpos, pre, x, post, heq, hpre, hx, ht⟩
            cases pre with
            | nil =>
              simp only [List.nil_append] at heq
              injection heq with h1 _
              rw [← h1] at ht
              exact absurd ⟨hpos, ht⟩ htime
            | cons p pre' =>
              simp only [List.cons_append] at heq
              injection heq with _ h2
              exact ⟨hpos, pre', x, post, h2,
                fun y hy => hpre y (List.mem_cons_of_mem p hy), hx, ht⟩

/-- C6: Wait returns ErrTimeout exactly when the timeout is positive and
some deadline check after an empty errorless Eval reads beyond it while
every earlier Eval also came back empty without triggering the deadline;
a non-positive timeout never returns ErrTimeout, and an Eval error or a
non-empty Eval result is returned immediately instead. -/
theorem c6_wait_timeout
    (trace : List (Except Unit (List Goroutine) × Int)) (timeout : Int) :
    (waitGo trace timeout = some (.error .errTimeout) ↔
      0 < timeout ∧ ∃ pre x post, trace = pre ++ x :: post ∧
        (∀ y ∈ pre, y.1 = .ok ([] : List Goroutine) ∧ y.2 ≤ timeout) ∧
        x.1 = .ok ([] : List Goroutine) ∧ timeout < x.2) ∧
    (timeout ≤ 0 → waitGo trace timeout ≠ some (.error .errTimeout)) ∧
    (∀ t rest, trace = (.error (), t) :: rest →
      waitGo trace timeout = some (.error .parseError)) ∧
    (∀ gs t rest, trace = (.ok gs, t) :: rest → gs ≠ [] →
      waitGo trace timeout = some (.ok gs)) := by
  refine ⟨waitGo_timeout_iff trace timeout, ?_, ?_, ?_⟩
  · intro hle h
    obtain ⟨hpos, _⟩ := (waitGo_timeout_iff trace timeout).mp h
    omega
  · rintro t rest rfl
    rfl
  · rintro gs t rest rfl hne
    have hlen : 0 < gs.length := List.length_pos.mpr hne
    simp [waitGo, hlen]

/-- Witness for C6: an Eval parse error is returned at once, not turned
into ErrTimeout. -/
theorem c6_witness :
    waitGo [(.error (), 3)] 7 = some (.error .parseError) :=
  (c6_wait_timeout [(.error (), 3)] 7).2.2.1 3 [] rfl

/-- C10: the deadline of Wait is consulted only after an Eval attempt
completed and came back empty: an error or a non-empty first Eval is
returned even when the elapsed reading already exceeds the timeout, and
ErrTimeout only ever arises from a trace whose first Eval completed with
the empty set. -/
theorem c10_wait_eval_before_deadline (timeout : Int) :
    (∀ t rest, waitGo ((.error (), t) :: rest) timeout =
      some (.error .parseError)) ∧
    (∀ gs t rest, gs ≠ [] →
      waitGo ((.ok gs, t) :: rest) timeout = some (.ok gs)) ∧
    (∀ trace, waitGo trace timeout = some (.error .errTimeout) →
      ∃ t rest, trace = (.ok ([] : List Goroutine), t) :: rest) := by
  refine ⟨fun t rest => rfl, ?_, ?_⟩
  · intro gs t rest hne
    have hlen : 0 < gs.length := List.length_pos.mpr hne
    simp [waitGo, hlen]
  · intro trace h
    cases trace with
    | nil => simp [waitGo] at h
    | cons hd rest =>
      obtain ⟨r, t⟩ := hd
      cases r with
      | error e => simp [waitGo] at h
      | ok gs =>
        by_cases hlen : 0 < gs.length
        · simp [waitGo, hlen] at h
        · have hgs : gs = [] := List.length_eq_zero.mp (by omega)
          subst hgs
          exact ⟨t, rest, rfl⟩

/-- Witness for C10: a non-empty first Eval is returned even though the
elapsed reading 100 already exceeds the positive timeout 1. -/
theorem c10_witness :
    waitGo [(.ok [gRunning], 100)] 1 = some (.ok [gRunning]) :=
  (c10_wait_eval_before_deadline 1).2.1 [gRunning] 100 [] (by simp)

/-- C9: a malformed pattern fails when the CreatedBy filter is built,
before any Eval (the construction itself aborts, there is no Condition
to evaluate), and a valid pattern appends a unit filter that keeps
exactly the goroutines whose creation-site name matches. -/
theorem c9_created_by_construction (compile : Str → Option (Str → Bool))
    (pat : Str) (c : Condition) :
    (compile pat = none → createdBy compile pat c = none) ∧
    (∀ re, compile pat = some re →
      createdBy compile pat c =
        some { c with
          filters := c.filters ++ [Filter.byGo (fun g => re g.createdBy)] } ∧
      (∀ gs : List Goroutine,
        evalFiltersRun [Filter.byGo (fun g => re g.createdBy)] gs =
          gs.filter (fun g => re g.createdBy)) ∧
      (∀ (gs : List Goroutine) (g : Goroutine),
        g ∈ gs.filter (fun g => re g.createdBy) ↔
          g ∈ gs ∧ re g.createdBy = true)) := by
  constructor
  · intro h
    simp [createdBy, h]
  · intro re h
    refine ⟨by simp [createdBy, h], ?_, ?_⟩
    · intro gs
      have := evalFilters_units [fun g => re g.createdBy] gs
      simpa using this
    · intro gs g
      simp [List.mem_filter]

/-- Concrete compile collaborator used by the C9 witness: the empty
pattern is rejected, any other pattern compiles to a prefix matcher. -/
def compileW (p : Str) : Option (Str → Bool) :=
  if p.isEmpty then none else some (fun s => hasPrefix s p)

/-- Witness for C9: with the compiled matcher for the pattern a, the
appended unit filter computes exactly the matching subsequence. -/
theorem c9_witness :
    evalFiltersRun
      [Filter.byGo (fun g => hasPrefix g.createdBy ['a'])] [gRunning] =
      [gRunning].filter (fun g => hasPrefix g.createdBy ['a']) :=
  ((c9_created_by_construction compileW ['a'] ⟨[], 0⟩).2
    (fun s => hasPrefix s ['a']) rfl).2.1 [gRunning]

end GoPeek
